import Mathlib

/-!
Verification of the es6-dev-server middleware (src/index.js).

The file embeds the import-rewriting engine and the request handler of the
repository shallowly: JavaScript strings become lists of characters,
the external collaborators (the file system, the acorn parser, the resolve
library and the crypto hash) become explicit function parameters, and the
stateful request handler becomes a function from a cache state and a
request to a result record that also carries the trace of file reads and
file watches performed during the call.

src/index.js contains two concatenated variants of the middleware class:
a first variant (lines 1-158) whose parse failures produce a 500 response,
and a second, comment-heavy variant (lines 159-481) that falls back to
serving the unmodified source on a parse failure.  Both are embedded; they
differ only in the parse-failure branch of handleRequest and in the Cached
constructor taking the mimetype as a parameter.
-/

/-! ## Text patches (the rewriting core) -/

/-- A text patch: replace the half-open range from `from_` to `to_` of the
original source text by `text`.  Mirrors the objects pushed by
resolveImports, src/index.js lines 122-126 and 135-139.  The JS fields are
named `from` and `to`; `from` is a reserved word in Lean, hence the
trailing underscores. -/
structure Patch where
  from_ : Nat
  to_ : Nat
  text : List Char
deriving DecidableEq, Repr

/-- One splicing step, src/index.js line 145:
`code = code.slice(0, patch.from) + patch.text + code.slice(patch.to)`. -/
def applyPatch (code : List Char) (p : Patch) : List Char :=
  code.take p.from_ ++ p.text ++ code.drop p.to_

/-- The sort comparator of src/index.js line 144, `(a, b) => b.from - a.from`:
`a` is ordered no later than `b` exactly when `b.from ≤ a.from` (descending
start offset). -/
def byFromDesc (a b : Patch) : Prop := b.from_ ≤ a.from_

instance : DecidableRel byFromDesc := fun a b => Nat.decLe _ _

/-- Lines 144-146 of src/index.js: sort the patches by descending start
offset and splice each one into the accumulating text.
`Array.prototype.sort` is an external builtin; since ECMAScript 2019 it is
required to be stable, so it is modelled by the stable insertion sort. -/
def applyPatches (code : List Char) (patches : List Patch) : List Char :=
  (List.insertionSort byFromDesc patches).foldl applyPatch code

/-- The patch list is in document order and non-overlapping: every patch
replaces a nonempty range that ends no later than the start of the next
patch.  The ranges rewritten by the middleware are quoted string literals,
hence nonempty, pairwise disjoint, and collected in source order by the
syntax-tree walk. -/
def patchesOrdered : List Patch → Bool
  | [] => true
  | [p] => decide (p.from_ < p.to_)
  | p :: q :: ps =>
      decide (p.from_ < p.to_) && decide (p.to_ ≤ q.from_) && patchesOrdered (q :: ps)

/-- All patches fit inside a source text of length `n`. -/
def patchesInBounds (n : Nat) (ps : List Patch) : Bool :=
  ps.all fun p => decide (p.to_ ≤ n)

/-- Re-measuring a later patch after an earlier patch `p` has been applied:
the range from `p.from_` to `p.to_` was replaced by `p.text`, so every
offset at or beyond `p.to_` moves by the length difference.  Offsets are
natural numbers and the subtraction truncates; for a patch lying at or
beyond `p.to_` no truncation occurs.  This is the reference semantics of
the spec (testable property 5), not code of the repository. -/
def remeasure (p q : Patch) : Patch :=
  { q with
    from_ := q.from_ + p.text.length - (p.to_ - p.from_),
    to_ := q.to_ + p.text.length - (p.to_ - p.from_) }

/-- Reference semantics from the spec (testable property 5): apply the
patches one at a time in ascending document order, re-measuring all
subsequent offsets after each edit.  This is the definition the descending
splice of `applyPatches` is compared against; it is written from the words
of the spec, not from the source. -/
def applyAscending : List Char → List Patch → List Char
  | code, [] => code
  | code, p :: ps => applyAscending (applyPatch code p) (ps.map (remeasure p))
termination_by code ps => ps.length
decreasing_by simp

/-- Rebase a patch across the removal of the first `k` characters of the
source. -/
def rebase (k : Nat) (q : Patch) : Patch :=
  { q with from_ := q.from_ - k, to_ := q.to_ - k }

/-- Shift a patch `k` characters to the right. -/
def shiftUp (k : Nat) (q : Patch) : Patch :=
  { q with from_ := q.from_ + k, to_ := q.to_ + k }

/-- Canonical interleaving semantics of a document-ordered patch list: the
output keeps every character of the source outside the patched ranges and
replaces each patched range by its replacement text.  Both application
orders are proved equal to this form; it makes the frame property (bytes
outside the patched ranges survive verbatim) structurally evident. -/
def interleave : List Char → List Patch → List Char
  | code, [] => code
  | code, p :: ps =>
      code.take p.from_ ++ p.text ++ interleave (code.drop p.to_) (ps.map (rebase p.to_))
termination_by code ps => ps.length
decreasing_by simp

/-- Total length removed by the patches. -/
def cutLen (ps : List Patch) : Nat := (ps.map fun p => p.to_ - p.from_).sum

/-- Total length inserted by the patches. -/
def insLen (ps : List Patch) : Nat := (ps.map fun p => p.text.length).sum

/-! ## Ordering facts -/

/-- The Bool-valued ordering check unfolded to its Prop meaning. -/
theorem patchesOrdered_iff : ∀ ps : List Patch,
    patchesOrdered ps = true ↔
      (∀ p ∈ ps, p.from_ < p.to_) ∧ List.Pairwise (fun p q => p.to_ ≤ q.from_) ps
  | [] => by simp [patchesOrdered]
  | [p] => by simp [patchesOrdered]
  | p :: q :: ps => by
    have ih := patchesOrdered_iff (q :: ps)
    simp only [patchesOrdered, Bool.and_eq_true, decide_eq_true_eq] at *
    constructor
    · rintro ⟨⟨hpq, hle⟩, htail⟩
      rcases ih.mp htail with ⟨hlt, hpw⟩
      refine ⟨?_, ?_⟩
      · intro r hr
        rcases List.mem_cons.mp hr with rfl | hr
        · exact hpq
        · exact hlt r hr
      · refine List.Pairwise.cons ?_ hpw
        intro r hr
        rcases List.mem_cons.mp hr with rfl | hr
        · exact hle
        · have h1 : q.to_ ≤ r.from_ := by
            rcases List.pairwise_cons.mp hpw with ⟨hq, _⟩
            exact hq r hr
          have h2 : q.from_ < q.to_ := hlt q (List.mem_cons_self q ps)
          omega
    · rintro ⟨hlt, hpw⟩
      rcases List.pairwise_cons.mp hpw with ⟨hp, hpw'⟩
      refine ⟨⟨hlt p (List.mem_cons_self _ _), hp q (List.mem_cons_self q ps)⟩, ?_⟩
      exact ih.mpr ⟨fun r hr => hlt r (List.mem_cons_of_mem p hr), hpw'⟩

theorem patchesInBounds_iff (n : Nat) (ps : List Patch) :
    patchesInBounds n ps = true ↔ ∀ p ∈ ps, p.to_ ≤ n := by
  simp [patchesInBounds]

/-! ## The descending splice order equals the re-measuring ascending order -/

/-- Inserting a patch whose start offset is strictly below every start
offset in a descending list puts it at the end. -/
theorem orderedInsert_append_of_forall_not (p : Patch) :
    ∀ l : List Patch, (∀ y ∈ l, ¬ byFromDesc p y) →
      List.orderedInsert byFromDesc p l = l ++ [p]
  | [], _ => rfl
  | y :: l, h => by
    have hy : ¬ byFromDesc p y := h y (List.mem_cons_self y l)
    rw [List.orderedInsert, if_neg hy,
      orderedInsert_append_of_forall_not p l fun z hz => h z (List.mem_cons_of_mem y hz)]
    simp

/-- Sorting a document-ordered patch list by descending start offset
reverses it. -/
theorem insertionSort_byFromDesc_eq_reverse :
    ∀ ps : List Patch, (∀ p ∈ ps, p.from_ < p.to_) →
      List.Pairwise (fun p q => p.to_ ≤ q.from_) ps →
      List.insertionSort byFromDesc ps = ps.reverse
  | [], _, _ => rfl
  | p :: ps, hlt, hpw => by
    rcases List.pairwise_cons.mp hpw with ⟨hp, hpw'⟩
    have ih := insertionSort_byFromDesc_eq_reverse ps
      (fun r hr => hlt r (List.mem_cons_of_mem p hr)) hpw'
    rw [List.insertionSort, ih, orderedInsert_append_of_forall_not, List.reverse_cons]
    intro y hy
    have hy' : y ∈ ps := List.mem_reverse.mp hy
    have h1 : p.to_ ≤ y.from_ := hp y hy'
    have h2 : p.from_ < p.to_ := hlt p (List.mem_cons_self p ps)
    simp only [byFromDesc]
    omega

/-- The descending splice loop of lines 144-146, on a document-ordered
patch list, is the right fold that applies the highest patch first. -/
theorem applyPatches_eq_foldr (code : List Char) (ps : List Patch)
    (hlt : ∀ p ∈ ps, p.from_ < p.to_)
    (hpw : List.Pairwise (fun p q => p.to_ ≤ q.from_) ps) :
    applyPatches code ps = ps.foldr (fun p acc => applyPatch acc p) code := by
  unfold applyPatches
  rw [insertionSort_byFromDesc_eq_reverse ps hlt hpw, List.foldl_reverse]

/-- Splicing into a text whose first `k` characters are left of the patch
commutes with peeling that prefix off. -/
theorem applyPatch_append_left (s F : List Char) (k : Nat) (q : Patch)
    (hk : k ≤ s.length) (hkq : k ≤ q.from_) (hq : q.from_ ≤ q.to_) :
    applyPatch (s.take k ++ F) q = s.take k ++ applyPatch F (rebase k q) := by
  unfold applyPatch rebase
  have hlen : (s.take k).length = k := by
    simp only [List.length_take]
    omega
  rw [List.take_append_eq_append_take, List.drop_append_eq_append_drop, hlen, List.take_take]
  have h1 : q.from_ ⊓ k = k := by omega
  rw [h1]
  have h2 : (s.take k).drop q.to_ = [] := List.drop_eq_nil_of_le (by rw [hlen]; omega)
  rw [h2]
  simp [List.append_assoc]

/-- A right fold of patches all lying at or beyond offset `k` leaves the
first `k` characters untouched and acts on the rebased remainder. -/
theorem foldr_splice_rebase :
    ∀ (ps : List Patch) (s : List Char) (k : Nat), k ≤ s.length →
      (∀ q ∈ ps, k ≤ q.from_) → (∀ q ∈ ps, q.from_ ≤ q.to_) →
      ps.foldr (fun p acc => applyPatch acc p) s
        = s.take k ++ (ps.map (rebase k)).foldr (fun p acc => applyPatch acc p) (s.drop k)
  | [], s, k, _, _, _ => (List.take_append_drop k s).symm
  | q :: ps, s, k, hk, hlo, hwf => by
    have ih := foldr_splice_rebase ps s k hk
      (fun r hr => hlo r (List.mem_cons_of_mem q hr))
      (fun r hr => hwf r (List.mem_cons_of_mem q hr))
    have hkq : k ≤ q.from_ := hlo q (List.mem_cons_self q ps)
    have hq : q.from_ ≤ q.to_ := hwf q (List.mem_cons_self q ps)
    simp only [List.foldr_cons, List.map_cons]
    rw [ih, applyPatch_append_left _ _ _ _ hk hkq hq]

/-- Peeling the processed prefix off the splice fold yields the canonical
interleaving. -/
theorem applyPatch_head (s F : List Char) (p : Patch)
    (h1 : p.from_ ≤ p.to_) (h2 : p.to_ ≤ s.length) :
    applyPatch (s.take p.to_ ++ F) p = s.take p.from_ ++ p.text ++ F := by
  unfold applyPatch
  have hlen : (s.take p.to_).length = p.to_ := by
    simp only [List.length_take]
    omega
  rw [List.take_append_eq_append_take, List.drop_append_eq_append_drop, hlen]
  have ha : p.from_ - p.to_ = 0 := by omega
  have hb : p.to_ - p.to_ = 0 := by omega
  rw [ha, hb, List.take_take]
  have hc : p.from_ ⊓ p.to_ = p.from_ := by omega
  rw [hc]
  have hd : (s.take p.to_).drop p.to_ = [] := List.drop_eq_nil_of_le (le_of_eq hlen)
  rw [hd]
  simp

/-- The splice fold that applies the highest patch first computes the
canonical interleaving. -/
theorem foldr_splice_eq_interleave :
    ∀ (ps : List Patch) (s : List Char), (∀ p ∈ ps, p.from_ < p.to_) →
      List.Pairwise (fun p q => p.to_ ≤ q.from_) ps → (∀ p ∈ ps, p.to_ ≤ s.length) →
      ps.foldr (fun p acc => applyPatch acc p) s = interleave s ps
  | [], _, _, _, _ => by simp [interleave]
  | p :: ps, s, hlt, hpw, hb => by
    rcases List.pairwise_cons.mp hpw with ⟨hp, hpw'⟩
    have hps : p.to_ ≤ s.length := hb p (List.mem_cons_self p ps)
    have hfold := foldr_splice_rebase ps s p.to_ hps hp
      fun r hr => le_of_lt (hlt r (List.mem_cons_of_mem p hr))
    simp only [List.foldr_cons]
    rw [hfold, applyPatch_head s _ p (le_of_lt (hlt p (List.mem_cons_self p ps))) hps]
    have ih := foldr_splice_eq_interleave (ps.map (rebase p.to_)) (s.drop p.to_)
      (by
        intro r hr
        rcases List.mem_map.mp hr with ⟨r₀, hr₀, rfl⟩
        have h1 := hp r₀ hr₀
        have h2 := hlt r₀ (List.mem_cons_of_mem p hr₀)
        simp only [rebase]
        omega)
      (by
        rw [List.pairwise_map]
        refine hpw'.imp_of_mem ?_
        intro a b ha hb'
        have h1 := hp a ha
        simp only [rebase]
        omega)
      (by
        intro r hr
        rcases List.mem_map.mp hr with ⟨r₀, hr₀, rfl⟩
        have h1 := hb r₀ (List.mem_cons_of_mem p hr₀)
        simp only [rebase, List.length_drop]
        omega)
    rw [ih]
    simp [interleave]
termination_by ps s => ps.length
decreasing_by simp

/-- Splicing a patch shifted right by the length of a prefix leaves the
prefix intact. -/
theorem applyPatch_shiftUp (A B : List Char) (q : Patch) :
    applyPatch (A ++ B) (shiftUp A.length q) = A ++ applyPatch B q := by
  unfold applyPatch shiftUp
  rw [List.take_append_eq_append_take, List.drop_append_eq_append_drop]
  have h1 : A.take (q.from_ + A.length) = A := List.take_of_length_le (by omega)
  have h2 : A.drop (q.to_ + A.length) = [] := List.drop_eq_nil_of_le (by omega)
  have h3 : q.from_ + A.length - A.length = q.from_ := by omega
  have h4 : q.to_ + A.length - A.length = q.to_ := by omega
  rw [h1, h2, h3, h4]
  simp [List.append_assoc]

/-- The ascending re-measuring application ignores a common prefix when
all patches are shifted past it. -/
theorem applyAscending_shiftUp :
    ∀ (ps : List Patch) (A B : List Char), (∀ p ∈ ps, p.from_ < p.to_) →
      List.Pairwise (fun p q => p.to_ ≤ q.from_) ps →
      applyAscending (A ++ B) (ps.map (shiftUp A.length)) = A ++ applyAscending B ps
  | [], A, B, _, _ => by simp [applyAscending]
  | q :: ps, A, B, hlt, hpw => by
    rcases List.pairwise_cons.mp hpw with ⟨hq, hpw'⟩
    have hqlt : q.from_ < q.to_ := hlt q (List.mem_cons_self q ps)
    simp only [List.map_cons, applyAscending]
    rw [applyPatch_shiftUp A B q]
    have e2 : (ps.map (shiftUp A.length)).map (remeasure (shiftUp A.length q))
        = (ps.map (remeasure q)).map (shiftUp A.length) := by
      rw [List.map_map, List.map_map]
      refine List.map_congr_left ?_
      intro r hr
      have h1 : q.to_ ≤ r.from_ := hq r hr
      have h2 : r.from_ < r.to_ := hlt r (List.mem_cons_of_mem q hr)
      simp only [Function.comp, remeasure, shiftUp, Patch.mk.injEq]
      refine ⟨by omega, by omega, trivial⟩
    rw [e2]
    exact applyAscending_shiftUp (ps.map (remeasure q)) A (applyPatch B q)
      (by
        intro r hr
        rcases List.mem_map.mp hr with ⟨r₀, hr₀, rfl⟩
        have h1 := hq r₀ hr₀
        have h2 := hlt r₀ (List.mem_cons_of_mem q hr₀)
        simp only [remeasure]
        omega)
      (by
        rw [List.pairwise_map]
        refine hpw'.imp_of_mem ?_
        intro a b ha hb
        have h1 := hq a ha
        have h2 := hlt a (List.mem_cons_of_mem q ha)
        simp only [remeasure]
        omega)
termination_by ps A B => ps.length
decreasing_by simp

/-- The ascending re-measuring application computes the canonical
interleaving. -/
theorem applyAscending_eq_interleave :
    ∀ (ps : List Patch) (s : List Char), (∀ p ∈ ps, p.from_ < p.to_) →
      List.Pairwise (fun p q => p.to_ ≤ q.from_) ps → (∀ p ∈ ps, p.to_ ≤ s.length) →
      applyAscending s ps = interleave s ps
  | [], s, _, _, _ => by simp [applyAscending, interleave]
  | p :: ps, s, hlt, hpw, hb => by
    rcases List.pairwise_cons.mp hpw with ⟨hp, hpw'⟩
    have hplt : p.from_ < p.to_ := hlt p (List.mem_cons_self p ps)
    have hps : p.to_ ≤ s.length := hb p (List.mem_cons_self p ps)
    simp only [applyAscending]
    have hA : applyPatch s p = (s.take p.from_ ++ p.text) ++ s.drop p.to_ := by
      unfold applyPatch
      simp [List.append_assoc]
    have hLen : (s.take p.from_ ++ p.text).length = p.from_ + p.text.length := by
      simp only [List.length_append, List.length_take]
      omega
    have e2 : ps.map (remeasure p)
        = (ps.map (rebase p.to_)).map (shiftUp (s.take p.from_ ++ p.text).length) := by
      rw [List.map_map, hLen]
      refine List.map_congr_left ?_
      intro r hr
      have h1 : p.to_ ≤ r.from_ := hp r hr
      have h2 : r.from_ < r.to_ := hlt r (List.mem_cons_of_mem p hr)
      simp only [Function.comp, remeasure, shiftUp, rebase, Patch.mk.injEq]
      refine ⟨by omega, by omega, trivial⟩
    have hmlt : ∀ r ∈ ps.map (rebase p.to_), r.from_ < r.to_ := by
      intro r hr
      rcases List.mem_map.mp hr with ⟨r₀, hr₀, rfl⟩
      have h1 := hp r₀ hr₀
      have h2 := hlt r₀ (List.mem_cons_of_mem p hr₀)
      simp only [rebase]
      omega
    have hmpw : List.Pairwise (fun a b => a.to_ ≤ b.from_) (ps.map (rebase p.to_)) := by
      rw [List.pairwise_map]
      refine hpw'.imp_of_mem ?_
      intro a b ha hb'
      have h1 := hp a ha
      simp only [rebase]
      omega
    rw [hA, e2, applyAscending_shiftUp (ps.map (rebase p.to_)) _ _ hmlt hmpw]
    rw [applyAscending_eq_interleave (ps.map (rebase p.to_)) (s.drop p.to_) hmlt hmpw
      (by
        intro r hr
        rcases List.mem_map.mp hr with ⟨r₀, hr₀, rfl⟩
        have h1 := hb r₀ (List.mem_cons_of_mem p hr₀)
        simp only [rebase, List.length_drop]
        omega)]
    simp [interleave, List.append_assoc]
termination_by ps s => ps.length
decreasing_by simp

/-- C5: applying the patches sorted by descending start offset (the loop of
src/index.js lines 144-146) produces the same text as applying them one at
a time in ascending document order while re-measuring all subsequent
offsets after each edit.  The patch list is presented in document order
(the order the syntax-tree walk collects the references); the hypotheses
say the patched ranges are nonempty, pairwise non-overlapping, and inside
the source. -/
theorem applyPatches_eq_applyAscending (s : List Char) (ps : List Patch)
    (hord : patchesOrdered ps = true) (hb : patchesInBounds s.length ps = true) :
    applyPatches s ps = applyAscending s ps := by
  rcases (patchesOrdered_iff ps).mp hord with ⟨hlt, hpw⟩
  have hb' := (patchesInBounds_iff s.length ps).mp hb
  rw [applyPatches_eq_foldr s ps hlt hpw, foldr_splice_eq_interleave ps s hlt hpw hb',
    applyAscending_eq_interleave ps s hlt hpw hb']

/-- Witness for C5: two patches of different replacement lengths over a
concrete ten-character source. -/
theorem applyPatches_eq_applyAscending_witness :
    patchesOrdered [⟨1, 3, ['X', 'Y', 'Z']⟩, ⟨4, 6, ['Q']⟩] = true ∧
    patchesInBounds ("abcdefghij".data).length [⟨1, 3, ['X', 'Y', 'Z']⟩, ⟨4, 6, ['Q']⟩] = true ∧
    applyPatches "abcdefghij".data [⟨1, 3, ['X', 'Y', 'Z']⟩, ⟨4, 6, ['Q']⟩]
      = applyAscending "abcdefghij".data [⟨1, 3, ['X', 'Y', 'Z']⟩, ⟨4, 6, ['Q']⟩] :=
  ⟨by decide, by decide,
    applyPatches_eq_applyAscending "abcdefghij".data
      [⟨1, 3, ['X', 'Y', 'Z']⟩, ⟨4, 6, ['Q']⟩] (by decide) (by decide)⟩

/-! ## The frame property: gaps between patches survive verbatim -/

/-- Total removed length of disjoint in-order patches lying between offsets
`k` and `a` is at most the width of that window. -/
theorem cutLen_le : ∀ (ps : List Patch) (a k : Nat),
    (∀ p ∈ ps, p.from_ < p.to_) → List.Pairwise (fun p q => p.to_ ≤ q.from_) ps →
    (∀ p ∈ ps, p.to_ ≤ a) → (∀ p ∈ ps, k ≤ p.from_) → cutLen ps ≤ a - k
  | [], _, _, _, _, _, _ => by simp [cutLen]
  | p :: ps, a, k, hlt, hpw, ha, hk => by
    rcases List.pairwise_cons.mp hpw with ⟨hp, hpw'⟩
    have ih := cutLen_le ps a p.to_ (fun r hr => hlt r (List.mem_cons_of_mem p hr)) hpw'
      (fun r hr => ha r (List.mem_cons_of_mem p hr)) hp
    have h1 : p.from_ < p.to_ := hlt p (List.mem_cons_self p ps)
    have h2 : p.to_ ≤ a := ha p (List.mem_cons_self p ps)
    have h3 : k ≤ p.from_ := hk p (List.mem_cons_self p ps)
    simp only [cutLen, List.map_cons, List.sum_cons] at *
    omega

/-- Rebasing patches that lie beyond the removed prefix does not change the
total removed length. -/
theorem cutLen_map_rebase (k : Nat) (ps : List Patch)
    (h1 : ∀ q ∈ ps, k ≤ q.from_) (h2 : ∀ q ∈ ps, q.from_ ≤ q.to_) :
    cutLen (ps.map (rebase k)) = cutLen ps := by
  unfold cutLen
  rw [List.map_map]
  refine congrArg List.sum (List.map_congr_left ?_)
  intro q hq
  have := h1 q hq
  have := h2 q hq
  simp only [Function.comp, rebase]
  omega

/-- Rebasing does not change the replacement texts. -/
theorem insLen_map_rebase (k : Nat) (ps : List Patch) :
    insLen (ps.map (rebase k)) = insLen ps := by
  unfold insLen
  rw [List.map_map]
  rfl

/-- Frame property of the canonical interleaving: the characters in a gap
between the patches of `ps₁` (all ending at or before `a`) and the patches
of `ps₂` (all starting at or after `b`) reappear verbatim in the output,
shifted by the net length change of the patches before the gap. -/
theorem interleave_gap :
    ∀ (ps₁ ps₂ : List Patch) (s : List Char) (a b : Nat),
      (∀ p ∈ ps₁ ++ ps₂, p.from_ < p.to_) →
      List.Pairwise (fun p q => p.to_ ≤ q.from_) (ps₁ ++ ps₂) →
      (∀ p ∈ ps₁ ++ ps₂, p.to_ ≤ s.length) →
      (∀ p ∈ ps₁, p.to_ ≤ a) → (∀ p ∈ ps₂, b ≤ p.from_) → a ≤ b →
      ((interleave s (ps₁ ++ ps₂)).drop (a - cutLen ps₁ + insLen ps₁)).take (b - a)
        = (s.drop a).take (b - a)
  | [], [], s, a, b, _, _, _, _, _, _ => by
    simp [interleave, cutLen, insLen]
  | [], q :: qs, s, a, b, hlt, _, hbnd, _, h₂, hab => by
    have hqf : b ≤ q.from_ := h₂ q (List.mem_cons_self q qs)
    have hqlt : q.from_ < q.to_ := hlt q (by simp)
    have hqb : q.to_ ≤ s.length := hbnd q (by simp)
    simp only [List.nil_append, interleave, cutLen, insLen, List.map_nil, List.sum_nil,
      Nat.sub_zero, Nat.add_zero]
    rw [List.append_assoc, List.drop_append_eq_append_drop]
    have hl : (s.take q.from_).length = q.from_ := by
      simp only [List.length_take]
      omega
    rw [hl, List.drop_take]
    have h0 : a - q.from_ = 0 := by omega
    rw [h0, List.drop_zero, List.take_append_eq_append_take]
    have hlen2 : ((s.drop a).take (q.from_ - a)).length = q.from_ - a := by
      simp only [List.length_take, List.length_drop]
      omega
    rw [hlen2]
    have h3 : b - a - (q.from_ - a) = 0 := by omega
    rw [h3, List.take_zero, List.append_nil, List.take_take]
    have h4 : (b - a) ⊓ (q.from_ - a) = b - a := by omega
    rw [h4]
  | p :: ps₁, ps₂, s, a, b, hlt, hpw, hbnd, h₁, h₂, hab => by
    simp only [List.cons_append] at hlt hpw hbnd
    rcases List.pairwise_cons.mp hpw with ⟨hp, hpw'⟩
    have hpa : p.to_ ≤ a := h₁ p (List.mem_cons_self p ps₁)
    have hplt : p.from_ < p.to_ := hlt p (List.mem_cons_self _ _)
    have hpb : p.to_ ≤ s.length := hbnd p (List.mem_cons_self _ _)
    have hp₁ : ∀ q ∈ ps₁, p.to_ ≤ q.from_ := fun q hq => hp q (List.mem_append_left ps₂ hq)
    have hlt₁ : ∀ q ∈ ps₁, q.from_ < q.to_ :=
      fun q hq => hlt q (List.mem_cons_of_mem p (List.mem_append_left ps₂ hq))
    have hpw₁ : List.Pairwise (fun p q => p.to_ ≤ q.from_) ps₁ :=
      (List.pairwise_append.mp hpw').1
    have hcut : cutLen ps₁ ≤ a - p.to_ :=
      cutLen_le ps₁ a p.to_ hlt₁ hpw₁ (fun q hq => h₁ q (List.mem_cons_of_mem p hq)) hp₁
    have ih := interleave_gap (ps₁.map (rebase p.to_)) (ps₂.map (rebase p.to_))
      (s.drop p.to_) (a - p.to_) (b - p.to_)
      (by
        intro r hr
        rw [← List.map_append] at hr
        rcases List.mem_map.mp hr with ⟨r₀, hr₀, rfl⟩
        have u1 := hp r₀ hr₀
        have u2 := hlt r₀ (List.mem_cons_of_mem p hr₀)
        simp only [rebase]
        omega)
      (by
        rw [← List.map_append, List.pairwise_map]
        refine hpw'.imp_of_mem ?_
        intro x y hx hy
        have u1 := hp x hx
        simp only [rebase]
        omega)
      (by
        intro r hr
        rw [← List.map_append] at hr
        rcases List.mem_map.mp hr with ⟨r₀, hr₀, rfl⟩
        have u1 := hbnd r₀ (List.mem_cons_of_mem p hr₀)
        simp only [rebase, List.length_drop]
        omega)
      (by
        intro r hr
        rcases List.mem_map.mp hr with ⟨r₀, hr₀, rfl⟩
        have u1 := h₁ r₀ (List.mem_cons_of_mem p hr₀)
        simp only [rebase]
        omega)
      (by
        intro r hr
        rcases List.mem_map.mp hr with ⟨r₀, hr₀, rfl⟩
        have u1 := h₂ r₀ hr₀
        simp only [rebase]
        omega)
      (by omega)
    rw [cutLen_map_rebase p.to_ ps₁ hp₁ (fun q hq => le_of_lt (hlt₁ q hq)),
      insLen_map_rebase] at ih
    have hdd : (s.drop p.to_).drop (a - p.to_) = s.drop a := by
      rw [List.drop_drop]
      have : p.to_ + (a - p.to_) = a := by omega
      rw [this]
    have hba : b - p.to_ - (a - p.to_) = b - a := by omega
    rw [hdd, hba] at ih
    simp only [List.cons_append, interleave, List.map_append]
    rw [List.drop_append_eq_append_drop]
    have hAlen : (s.take p.from_ ++ p.text).length = p.from_ + p.text.length := by
      simp only [List.length_append, List.length_take]
      omega
    have hpos : a - cutLen (p :: ps₁) + insLen (p :: ps₁)
        = (p.from_ + p.text.length) + (a - p.to_ - cutLen ps₁ + insLen ps₁) := by
      have hcut' := hcut
      simp only [cutLen, insLen, List.map_cons, List.sum_cons] at hcut' ⊢
      omega
    rw [hpos, hAlen]
    have hnil : (s.take p.from_ ++ p.text).drop
        (p.from_ + p.text.length + (a - p.to_ - cutLen ps₁ + insLen ps₁)) = [] := by
      refine List.drop_eq_nil_of_le ?_
      rw [hAlen]
      omega
    rw [hnil, List.nil_append]
    have harg : p.from_ + p.text.length + (a - p.to_ - cutLen ps₁ + insLen ps₁)
        - (p.from_ + p.text.length) = a - p.to_ - cutLen ps₁ + insLen ps₁ := by
      omega
    rw [harg]
    exact ih
termination_by ps₁ ps₂ s a b => ps₁.length
decreasing_by simp

/-! ## The syntax-tree walk and import resolution -/

/-- The node kinds for which the walk of src/index.js lines 128-143 and
405-423 registers a handler: ImportDeclaration, ExportNamedDeclaration,
ExportAllDeclaration, ExportDefaultDeclaration (the last two only in the
second variant) and ImportExpression.  The handlers treat all kinds the
same way, so the kind is carried only for documentation. -/
inductive NodeKind where
  | importDecl
  | exportNamed
  | exportAll
  | exportDefault
  | importExpr
deriving DecidableEq, Repr

/-- The source clause of a walked node: the range of the specifier string
literal in the original text (quotes included) and its decoded string
value.  For patchSrc the value is obtained by evaluating the quoted slice
(line 119, an indirect eval); for ImportExpression it is read from
node.source.value (line 133); both are the decoded literal. -/
structure SrcLit where
  start : Nat
  stop : Nat
  value : List Char
deriving DecidableEq, Repr

/-- A node delivered by walk.simple, projected to what the handlers read.
source is none for a declaration without a source clause (patchSrc returns
at line 118) and for a dynamic import whose argument is not a string
literal (line 132). -/
structure Node where
  kind : NodeKind
  source : Option SrcLit
deriving DecidableEq, Repr

/-- The external collaborators of the middleware, passed as explicit
parameters of the shallow embedding: the file system read, the acorn
parser projected to the walked node list (or the stringified parse error),
the composite of resolve.sync and fs.realpathSync (the resolved absolute
path, or the stringified thrown error), the path.relative computation
against the directory of the importing file, and the sha1 hex digest of
the crypto library. -/
structure Env where
  fs : String → Option (List Char)
  parse : List Char → Except (List Char) (List Node)
  resolveSync : String → List Char → Except (List Char) (List Char)
  relative : String → List Char → List Char
  sha1hex : List Char → String

/-- unwin, src/index.js lines 152 and 481: on a platform whose path
separator is a backslash it replaces backslashes by forward slashes;
on posix, path.sep is the forward slash and unwin is the identity.  The
posix branch is modelled. -/
def unwin (s : List Char) : List Char := s

/-- resolveModule (lines 97-107) and resolveModuleLikeNode (lines 443-460):
run node-style resolution for the import path against the directory of the
importing module; on a thrown error return its string, otherwise the
resolved path made relative to that directory, with separators
normalised. -/
def resolveModule (env : Env) (moduleFilePath : String) (importPath : List Char) :
    Except (List Char) (List Char) :=
  match env.resolveSync moduleFilePath importPath with
  | .error e => .error e
  | .ok resolved => .ok (unwin (env.relative moduleFilePath resolved))

/-- One character of JSON string escaping.  JSON.stringify also escapes
control characters; module paths contain none, and nothing below depends
on the escaping details. -/
def jsonEscapeChar (c : Char) : List Char :=
  if c = '"' then ['\\', '"'] else if c = '\\' then ['\\', '\\'] else [c]

/-- JSON.stringify on a string value: double quotes around the escaped
characters. -/
def jsonStringify (s : List Char) : List Char :=
  '"' :: ((s.map jsonEscapeChar).flatten ++ ['"'])

/-- The patch a walked node contributes, if any: patchSrc (lines 117-127
and 392-404) and the ImportExpression handler (lines 131-142 and 411-422).
A node without a literal source clause is skipped; a node whose specifier
fails to resolve is skipped (patchSrc returns early, and walk.simple
discards handler return values, so the error object it returns at line 121
goes nowhere); otherwise the source range is replaced by
JSON.stringify of "./" concatenated with the resolved relative path. -/
def nodePatch (env : Env) (moduleFilePath : String) (n : Node) : Option Patch :=
  match n.source with
  | none => none
  | some sl =>
    match resolveModule env moduleFilePath sl.value with
    | .error _ => none
    | .ok p => some { from_ := sl.start, to_ := sl.stop, text := jsonStringify ('.' :: '/' :: p) }

/-- The patch list collected by walk.simple over the node list, in walk
order. -/
def walkPatches (env : Env) (moduleFilePath : String) (ns : List Node) : List Patch :=
  ns.filterMap (nodePatch env moduleFilePath)

/-- resolveImports, src/index.js lines 109-148 and 384-428: parse the code
as a module (a parse failure is returned as the stringified error), collect
the patches of the walked nodes, and splice them in descending start-offset
order. -/
def resolveImports (env : Env) (moduleFilePath : String) (code : List Char) :
    Except (List Char) (List Char) :=
  match env.parse code with
  | .error e => .error e
  | .ok ns => .ok (applyPatches code (walkPatches env moduleFilePath ns))

/-- A package manifest projected to the entry-point fields the middleware
reads.  jnext is listed because the condition at lines 156 and 446 tests a
field of that name. -/
structure Pkg where
  main : Option String
  module : Option String
  jsnext : Option String
  jnext : Option String
deriving DecidableEq, Repr

/-- JavaScript truthiness of a possibly absent string field: undefined and
the empty string are falsy. -/
def truthy : Option String → Bool
  | none => false
  | some s => !(s == "")

/-- packageFilter, src/index.js lines 154-158 and 444-448:
if (pkg.module) pkg.main = pkg.module; else if (pkg.jnext) pkg.main =
pkg.jsnext.  Note the condition of the second branch tests jnext while the
assignment reads jsnext. -/
def packageFilter (pkg : Pkg) : Pkg :=
  if truthy pkg.module then { pkg with main := pkg.module }
  else if truthy pkg.jnext then { pkg with main := pkg.jsnext }
  else pkg

/-! ## Claims about the resolver preference and the rewriter -/

/-- C7: for a package manifest defining both main and module, packageFilter
overwrites main with module before the resolve library reads it, so
resolution selects the module target over main. -/
theorem packageFilter_module_over_main (pkg : Pkg) (m mainv : String)
    (hmod : pkg.module = some m) (hm : ¬ m = "") (hmain : pkg.main = some mainv) :
    (packageFilter pkg).main = some m := by
  simp [packageFilter, truthy, hmod, hm]

/-- Witness for C7 at a concrete manifest. -/
theorem packageFilter_module_over_main_witness :
    (Pkg.mk (some "main.js") (some "module.js") none none).module = some "module.js" ∧
    ¬ "module.js" = "" ∧
    (Pkg.mk (some "main.js") (some "module.js") none none).main = some "main.js" ∧
    (packageFilter (Pkg.mk (some "main.js") (some "module.js") none none)).main
      = some "module.js" :=
  ⟨rfl, by decide, rfl,
    packageFilter_module_over_main _ "module.js" "main.js" rfl (by decide) rfl⟩

/-- C3 fails on the code: the second branch of packageFilter tests the
nonexistent jnext field, so a manifest with jsnext and main but no module
keeps main unchanged and the jsnext file is never selected. -/
theorem packageFilter_jsnext_counterexample :
    packageFilter (Pkg.mk (some "main-entry.js") none (some "jsnext-entry.js") none)
      = Pkg.mk (some "main-entry.js") none (some "jsnext-entry.js") none ∧
    (packageFilter (Pkg.mk (some "main-entry.js") none (some "jsnext-entry.js") none)).main
      ≠ some "jsnext-entry.js" := by
  constructor
  · rfl
  · decide

/-- C9: on a successfully parsed module the rewrite never fails and equals
the canonical interleaving of the collected patches, which keeps every
byte outside the patched specifier ranges; any gap between the patches
reappears verbatim at its shifted position, and a source with no
specifier reference at all is returned unchanged. -/
theorem resolveImports_frame (env : Env) (mfp : String) (code : List Char) (ns : List Node)
    (hp : env.parse code = .ok ns)
    (hord : patchesOrdered (walkPatches env mfp ns) = true)
    (hb : patchesInBounds code.length (walkPatches env mfp ns) = true) :
    resolveImports env mfp code = .ok (interleave code (walkPatches env mfp ns))
    ∧ ((∀ n ∈ ns, n.source = none) → resolveImports env mfp code = .ok code)
    ∧ (∀ (ps₁ ps₂ : List Patch) (a b : Nat), walkPatches env mfp ns = ps₁ ++ ps₂ →
        (∀ p ∈ ps₁, p.to_ ≤ a) → (∀ p ∈ ps₂, b ≤ p.from_) → a ≤ b →
        ((interleave code (walkPatches env mfp ns)).drop (a - cutLen ps₁ + insLen ps₁)).take
            (b - a)
          = (code.drop a).take (b - a)) := by
  have hres : resolveImports env mfp code = .ok (applyPatches code (walkPatches env mfp ns)) := by
    unfold resolveImports
    rw [hp]
  rcases (patchesOrdered_iff _).mp hord with ⟨hlt, hpw⟩
  have hb' := (patchesInBounds_iff _ _).mp hb
  have hint : applyPatches code (walkPatches env mfp ns)
      = interleave code (walkPatches env mfp ns) := by
    rw [applyPatches_eq_foldr _ _ hlt hpw, foldr_splice_eq_interleave _ _ hlt hpw hb']
  refine ⟨by rw [hres, hint], ?_, ?_⟩
  · intro hnone
    have hempty : walkPatches env mfp ns = [] := by
      unfold walkPatches
      refine List.filterMap_eq_nil_iff.mpr ?_
      intro n hn
      unfold nodePatch
      rw [hnone n hn]
    rw [hres, hempty]
    rfl
  · intro ps₁ ps₂ a b hsplit hga hgb hab
    rw [hsplit] at hlt hpw hb' ⊢
    exact interleave_gap ps₁ ps₂ code a b hlt hpw hb' hga hgb hab

/-- A concrete node with one resolvable specifier, for the witnesses. -/
def c9Node : Node := ⟨NodeKind.importDecl, some ⟨1, 3, ['a']⟩⟩

/-- A concrete environment whose parser yields one resolvable reference. -/
def c9Env : Env :=
  { fs := fun _ => none
    parse := fun _ => .ok [c9Node]
    resolveSync := fun _ _ => .ok ['r']
    relative := fun _ p => p
    sha1hex := fun _ => "h" }

/-- Witness for C9 at a concrete environment and source. -/
theorem resolveImports_frame_witness :
    c9Env.parse "0123456".data = .ok [c9Node] ∧
    patchesOrdered (walkPatches c9Env "/m.js" [c9Node]) = true ∧
    patchesInBounds ("0123456".data).length (walkPatches c9Env "/m.js" [c9Node]) = true ∧
    (resolveImports c9Env "/m.js" "0123456".data
        = .ok (interleave "0123456".data (walkPatches c9Env "/m.js" [c9Node]))
      ∧ ((∀ n ∈ [c9Node], n.source = none) →
          resolveImports c9Env "/m.js" "0123456".data = .ok "0123456".data)
      ∧ (∀ (ps₁ ps₂ : List Patch) (a b : Nat),
          walkPatches c9Env "/m.js" [c9Node] = ps₁ ++ ps₂ →
          (∀ p ∈ ps₁, p.to_ ≤ a) → (∀ p ∈ ps₂, b ≤ p.from_) → a ≤ b →
          ((interleave "0123456".data (walkPatches c9Env "/m.js" [c9Node])).drop
              (a - cutLen ps₁ + insLen ps₁)).take (b - a)
            = (("0123456".data).drop a).take (b - a))) :=
  ⟨rfl, by decide, by decide,
    resolveImports_frame c9Env "/m.js" "0123456".data [c9Node] rfl (by decide) (by decide)⟩

/-- C6: a specifier whose resolution fails is skipped: the rewrite still
succeeds (so the request cannot fail on it), it equals the rewrite of the
same source with that reference dropped from the walk, and the failing
specifier range, quotes included, reappears verbatim at its shifted
position in the output while the other references are spliced around
it. -/
theorem resolveImports_skip_failed (env : Env) (mfp : String) (code : List Char)
    (ns₁ ns₂ : List Node) (n : Node) (sl : SrcLit) (e : List Char)
    (hp : env.parse code = .ok (ns₁ ++ n :: ns₂))
    (hsl : n.source = some sl)
    (hfail : resolveModule env mfp sl.value = .error e)
    (hord : patchesOrdered (walkPatches env mfp ns₁ ++ walkPatches env mfp ns₂) = true)
    (hb : patchesInBounds code.length
      (walkPatches env mfp ns₁ ++ walkPatches env mfp ns₂) = true)
    (h₁ : ∀ p ∈ walkPatches env mfp ns₁, p.to_ ≤ sl.start)
    (h₂ : ∀ p ∈ walkPatches env mfp ns₂, sl.stop ≤ p.from_)
    (hse : sl.start ≤ sl.stop) :
    resolveImports env mfp code
        = .ok (applyPatches code (walkPatches env mfp (ns₁ ++ ns₂)))
    ∧ ((applyPatches code (walkPatches env mfp (ns₁ ++ ns₂))).drop
          (sl.start - cutLen (walkPatches env mfp ns₁) + insLen (walkPatches env mfp ns₁))).take
          (sl.stop - sl.start)
        = (code.drop sl.start).take (sl.stop - sl.start) := by
  have hnone : nodePatch env mfp n = none := by
    simp [nodePatch, hsl, hfail]
  have hsplit : walkPatches env mfp (ns₁ ++ n :: ns₂)
      = walkPatches env mfp ns₁ ++ walkPatches env mfp ns₂ := by
    unfold walkPatches
    rw [List.filterMap_append]
    congr 1
    simp [List.filterMap_cons, hnone]
  have hsplit2 : walkPatches env mfp (ns₁ ++ ns₂)
      = walkPatches env mfp ns₁ ++ walkPatches env mfp ns₂ := by
    unfold walkPatches
    rw [List.filterMap_append]
  rcases (patchesOrdered_iff _).mp hord with ⟨hlt, hpw⟩
  have hb' := (patchesInBounds_iff _ _).mp hb
  have hint : applyPatches code (walkPatches env mfp ns₁ ++ walkPatches env mfp ns₂)
      = interleave code (walkPatches env mfp ns₁ ++ walkPatches env mfp ns₂) := by
    rw [applyPatches_eq_foldr _ _ hlt hpw, foldr_splice_eq_interleave _ _ hlt hpw hb']
  have hres : resolveImports env mfp code
      = .ok (applyPatches code (walkPatches env mfp (ns₁ ++ n :: ns₂))) := by
    unfold resolveImports
    rw [hp]
  constructor
  · rw [hres, hsplit, hsplit2]
  · rw [hsplit2, hint]
    exact interleave_gap _ _ code sl.start sl.stop hlt hpw hb' h₁ h₂ hse

/-- Concrete nodes for the C6 witness: a resolvable reference on each side
of one whose specifier fails to resolve. -/
def c6n1 : Node := ⟨NodeKind.importDecl, some ⟨1, 3, ['a']⟩⟩

def c6nf : Node := ⟨NodeKind.exportNamed, some ⟨5, 7, ['b']⟩⟩

def c6n2 : Node := ⟨NodeKind.importExpr, some ⟨9, 11, ['c']⟩⟩

/-- A concrete environment whose resolver fails exactly on the specifier
of the middle reference. -/
def c6Env : Env :=
  { fs := fun _ => none
    parse := fun _ => .ok [c6n1, c6nf, c6n2]
    resolveSync := fun _ imp => if imp = ['b'] then .error ['E'] else .ok ['r']
    relative := fun _ p => p
    sha1hex := fun _ => "h" }

/-- Witness for C6 at a concrete environment and source. -/
theorem resolveImports_skip_failed_witness :
    c6Env.parse "0123456789ABCDEF".data = .ok ([c6n1] ++ c6nf :: [c6n2]) ∧
    c6nf.source = some ⟨5, 7, ['b']⟩ ∧
    resolveModule c6Env "/m.js" ['b'] = .error ['E'] ∧
    patchesOrdered
      (walkPatches c6Env "/m.js" [c6n1] ++ walkPatches c6Env "/m.js" [c6n2]) = true ∧
    (resolveImports c6Env "/m.js" "0123456789ABCDEF".data
        = .ok (applyPatches "0123456789ABCDEF".data
            (walkPatches c6Env "/m.js" ([c6n1] ++ [c6n2])))
      ∧ ((applyPatches "0123456789ABCDEF".data
            (walkPatches c6Env "/m.js" ([c6n1] ++ [c6n2]))).drop
            (5 - cutLen (walkPatches c6Env "/m.js" [c6n1])
              + insLen (walkPatches c6Env "/m.js" [c6n1]))).take (7 - 5)
          = (("0123456789ABCDEF".data).drop 5).take (7 - 5)) :=
  ⟨rfl, rfl, rfl, by decide,
    resolveImports_skip_failed c6Env "/m.js" "0123456789ABCDEF".data [c6n1] [c6n2] c6nf
      ⟨5, 7, ['b']⟩ ['E'] rfl rfl rfl (by decide) (by decide) (by decide) (by decide)
      (by decide)⟩

/-! ## The HTTP layer and the request handler -/

/-- An incoming request projected to what the handler reads: req.url and
the if-none-match header (line 85). -/
structure Request where
  url : String
  ifNoneMatch : Option String
deriving DecidableEq, Repr

/-- A written response: the status and headers passed to res.writeHead and
the body passed to res.end (none models res.end(null), the empty body). -/
structure Response where
  status : Nat
  headers : List (String × String)
  body : Option (List Char)
deriving DecidableEq, Repr

/-- A cache entry, the Cached class of src/index.js lines 9-17 (the second
variant, lines 200-208, differs only in hard-coding the mimetype): the
content together with the content-type and etag response headers, the etag
being the double-quoted sha1 hex digest of the content. -/
structure CacheEntry where
  content : List Char
  contentType : String
  etag : String
deriving DecidableEq, Repr

/-- The headers object stored in a Cached instance, lines 12-15. -/
def CacheEntry.headers (e : CacheEntry) : List (String × String) :=
  [("content-type", e.contentType), ("etag", e.etag)]

/-- The Cached constructor, lines 10-16: new Cached(content, mimetype).
The sha1 digest of the crypto library is the environment parameter. -/
def mkCached (sha1hex : List Char → String) (content : List Char) (mimetype : String) :
    CacheEntry :=
  { content := content
    contentType := mimetype ++ "; charset=utf-8"
    etag := "\"" ++ sha1hex content ++ "\"" }

/-- send, src/index.js lines 35-46 (identical at lines 256-268): write the
status, the two base headers (a permissive cross-origin header and an echo
of the requested url) plus the extra headers, then end with the body text.
The extraHeaders-is-a-string coercion at line 41 is dead at every call
site, which passes either nothing or the stored headers object. -/
def send (req : Request) (status : Nat) (text : Option (List Char))
    (extraHeaders : List (String × String)) : Response :=
  { status := status
    headers := [("access-control-allow-origin", "*"), ("x-request-url", req.url)] ++ extraHeaders
    body := text }

/-- The pathname of parseURL(req.url), line 53: the part of the url before
any query or fragment. -/
def urlPathname (url : String) : String :=
  String.mk (url.data.takeWhile fun c => !(c == '?' || c == '#'))

/-- String.prototype.endsWith, as used at lines 55 and 322. -/
def jsEndsWith (s suffix : String) : Bool :=
  suffix.data.isSuffixOf s.data

/-- The routing test of line 55: url.pathname.endsWith(js) or
url.pathname.endsWith(mjs), with the bare letters as the compared
suffixes.  Note they carry no dot. -/
def shouldHandle (pathname : String) : Bool :=
  jsEndsWith pathname "js" || jsEndsWith pathname "mjs"

/-- String.prototype.indexOf(needle) > -1, as used at line 86: the needle
occurs as a contiguous substring of the haystack. -/
def jsContains : List Char → List Char → Bool
  | [], needle => needle.isEmpty
  | h :: t, needle => needle.isPrefixOf (h :: t) || jsContains t needle

/-- path.join of the served root and the pathname, line 61.  The pathnames
involved begin with a slash, so join is string concatenation up to the
separator normalisation that unwin makes the identity on posix. -/
def joinPath (root pathname : String) : String :=
  root ++ pathname

/-- Lines 59 and 329 read this.cache[path].  The name path there denotes
the imported path module, not the pathname of the request, so the property
key is that object coerced to a property string, which is
"[object Object]" under the default Object.prototype.toString; the entry
stored under the pathname key at line 76 is never found by this lookup. -/
def pathModuleKey : String := "[object Object]"

/-- The result of one handleRequest call: the boolean return value, the
response written (if any), the cache after the call, and the trace of
readFileSync calls and of file watches armed during the call. -/
structure HandlerOut where
  handled : Bool
  response : Option Response
  cache : String → Option CacheEntry
  reads : List String
  watches : List String

/-- Lines 85-92: if the request carries an if-none-match header containing
the etag of the entry, send 304 with a null body, else send 200 with the
content and the stored headers. -/
def serveFromEntry (req : Request) (entry : CacheEntry) : Response :=
  match req.ifNoneMatch with
  | some noneMatch =>
      if jsContains noneMatch.data entry.etag.data then send req 304 none []
      else send req 200 (some entry.content) entry.headers
  | none => send req 200 (some entry.content) entry.headers

/-- handleRequest, src/index.js lines 52-93 (the first variant, whose
parse failures produce a 500 response carrying the error text): route on
the pathname suffix, look the entry up in the cache (at the coerced
pathModuleKey of line 59), on a miss read the file (declining the request
if the read throws), rewrite the imports (answering 500 on a rewrite
error), store the entry under the pathname and arm a file watch whose
callback, not modelled here, closes itself and clears the entry when the
file changes; finally answer 304 or 200 against the entry etag. -/
def handleRequest (env : Env) (root : String) (cache : String → Option CacheEntry)
    (req : Request) : HandlerOut :=
  let pathname := urlPathname req.url
  if !(shouldHandle pathname) then
    { handled := false, response := none, cache := cache, reads := [], watches := [] }
  else
    match cache pathModuleKey with
    | some cached =>
        { handled := true, response := some (serveFromEntry req cached), cache := cache,
          reads := [], watches := [] }
    | none =>
        let moduleFilePath := joinPath root pathname
        match env.fs moduleFilePath with
        | none =>
            { handled := false, response := none, cache := cache,
              reads := [moduleFilePath], watches := [] }
        | some code =>
            match resolveImports env moduleFilePath code with
            | .error e =>
                { handled := true, response := some (send req 500 (some e) []), cache := cache,
                  reads := [moduleFilePath], watches := [] }
            | .ok resolvedCode =>
                let entry := mkCached env.sha1hex resolvedCode "application/javascript"
                { handled := true, response := some (serveFromEntry req entry),
                  cache := fun k => if k = pathname then some entry else cache k,
                  reads := [moduleFilePath], watches := [moduleFilePath] }

/-- handleRequest of the second variant, src/index.js lines 318-366: the
only difference is the rewrite-error branch (lines 340-344), where the 500
response is commented out and the unmodified source is served and cached
instead, and the Cached constructor (line 347) hard-coding the javascript
mimetype. -/
def handleRequestTolerant (env : Env) (root : String) (cache : String → Option CacheEntry)
    (req : Request) : HandlerOut :=
  let pathname := urlPathname req.url
  if !(shouldHandle pathname) then
    { handled := false, response := none, cache := cache, reads := [], watches := [] }
  else
    match cache pathModuleKey with
    | some cached =>
        { handled := true, response := some (serveFromEntry req cached), cache := cache,
          reads := [], watches := [] }
    | none =>
        let moduleFilePath := joinPath root pathname
        match env.fs moduleFilePath with
        | none =>
            { handled := false, response := none, cache := cache,
              reads := [moduleFilePath], watches := [] }
        | some code =>
            let resolvedCode :=
              match resolveImports env moduleFilePath code with
              | .error _ => code
              | .ok resolvedCode => resolvedCode
            let entry := mkCached env.sha1hex resolvedCode "application/javascript"
            { handled := true, response := some (serveFromEntry req entry),
              cache := fun k => if k = pathname then some entry else cache k,
              reads := [moduleFilePath], watches := [moduleFilePath] }

/-! ## Claims about the request handler (first variant) -/

/-- C4: on a handled path whose file reads successfully but fails to parse
as a module, the first-variant handler answers 500 with the parser error
text as body, reports the request as handled, and leaves the cache exactly
as it was: no entry is created and the original source is not served. -/
theorem handleRequest_parse_error_500 (env : Env) (root : String)
    (cache : String → Option CacheEntry) (req : Request) (code e : List Char)
    (hc : cache pathModuleKey = none)
    (hjs : shouldHandle (urlPathname req.url) = true)
    (hread : env.fs (joinPath root (urlPathname req.url)) = some code)
    (hparse : env.parse code = .error e) :
    (handleRequest env root cache req).handled = true
    ∧ (handleRequest env root cache req).response
        = some
          { status := 500,
            headers := [("access-control-allow-origin", "*"), ("x-request-url", req.url)],
            body := some e }
    ∧ (handleRequest env root cache req).cache = cache
    ∧ (handleRequest env root cache req).watches = [] := by
  have herr : resolveImports env (joinPath root (urlPathname req.url)) code = .error e := by
    unfold resolveImports
    rw [hparse]
  simp [handleRequest, hjs, hc, hread, herr, send]

/-- A concrete environment whose parser always fails, for the C4
witness. -/
def c4Env : Env :=
  { fs := fun p => if p = "/a.js" then some ['x'] else none
    parse := fun _ => .error ['B', 'o', 'o', 'm']
    resolveSync := fun _ _ => .ok ['r']
    relative := fun _ p => p
    sha1hex := fun _ => "H" }

/-- Witness for C4 at a concrete environment and request. -/
theorem handleRequest_parse_error_500_witness :
    ((fun _ => none : String → Option CacheEntry) pathModuleKey = none ∧
     shouldHandle (urlPathname "/a.js") = true ∧
     c4Env.fs (joinPath "" (urlPathname "/a.js")) = some ['x'] ∧
     c4Env.parse ['x'] = .error ['B', 'o', 'o', 'm']) ∧
    ((handleRequest c4Env "" (fun _ => none) { url := "/a.js", ifNoneMatch := none }).handled
        = true
    ∧ (handleRequest c4Env "" (fun _ => none) { url := "/a.js", ifNoneMatch := none }).response
        = some
          { status := 500,
            headers := [("access-control-allow-origin", "*"), ("x-request-url", "/a.js")],
            body := some ['B', 'o', 'o', 'm'] }
    ∧ (handleRequest c4Env "" (fun _ => none) { url := "/a.js", ifNoneMatch := none }).cache
        = (fun _ => none)
    ∧ (handleRequest c4Env "" (fun _ => none) { url := "/a.js", ifNoneMatch := none }).watches
        = []) :=
  ⟨⟨rfl, by decide, rfl, rfl⟩,
    handleRequest_parse_error_500 c4Env "" (fun _ => none)
      { url := "/a.js", ifNoneMatch := none } ['x'] ['B', 'o', 'o', 'm']
      rfl (by decide) rfl rfl⟩

/-- C8: on a handled request answered from a (freshly created) cache
entry, the handler answers 304 with an empty body exactly when the
if-none-match header value contains the entry etag as a substring, and
otherwise answers 200 with the full rewritten content, the javascript
content-type header, and an etag header equal to the double-quoted sha1
hex digest of the served content. -/
theorem handleRequest_conditional_etag (env : Env) (root : String)
    (cache : String → Option CacheEntry) (req : Request) (code rc : List Char)
    (hc : cache pathModuleKey = none)
    (hjs : shouldHandle (urlPathname req.url) = true)
    (hread : env.fs (joinPath root (urlPathname req.url)) = some code)
    (hok : resolveImports env (joinPath root (urlPathname req.url)) code = .ok rc) :
    (handleRequest env root cache req).handled = true
    ∧ (handleRequest env root cache req).response
        = some
          (if (match req.ifNoneMatch with
               | some nm => jsContains nm.data ("\"" ++ env.sha1hex rc ++ "\"").data
               | none => false) then
            { status := 304,
              headers := [("access-control-allow-origin", "*"), ("x-request-url", req.url)],
              body := none }
          else
            { status := 200,
              headers := [("access-control-allow-origin", "*"), ("x-request-url", req.url),
                ("content-type", "application/javascript; charset=utf-8"),
                ("etag", "\"" ++ env.sha1hex rc ++ "\"")],
              body := some rc }) := by
  have hct : "application/javascript" ++ "; charset=utf-8"
      = "application/javascript; charset=utf-8" := rfl
  refine ⟨by simp [handleRequest, hjs, hc, hread, hok], ?_⟩
  simp only [handleRequest, hjs, hc, hread, hok, Bool.not_true, Bool.false_eq_true,
    if_false, reduceCtorEq]
  cases hnm : req.ifNoneMatch with
  | none =>
      simp [serveFromEntry, hnm, send, mkCached, CacheEntry.headers, hct]
  | some nm =>
      cases hj : jsContains nm.data ("\"" ++ env.sha1hex rc ++ "\"").data with
      | true => simp [serveFromEntry, hnm, send, mkCached, CacheEntry.headers, hj]
      | false => simp [serveFromEntry, hnm, send, mkCached, CacheEntry.headers, hj, hct]

/-- A concrete environment whose parser yields no references, for the C8
and C10 witnesses: the rewrite returns the source unchanged and the etag
is the quoted digest "H". -/
def c8Env : Env :=
  { fs := fun p => if p = "/a.js" then some ['x'] else none
    parse := fun _ => .ok []
    resolveSync := fun _ _ => .ok ['r']
    relative := fun _ p => p
    sha1hex := fun _ => "H" }

/-- A concrete conditional request whose if-none-match value contains the
entry etag. -/
def c8Req : Request := { url := "/a.js", ifNoneMatch := some "W/\"H\"" }

/-- Witness for C8 at a concrete environment and request (the 304
branch). -/
theorem handleRequest_conditional_etag_witness :
    ((fun _ => none : String → Option CacheEntry) pathModuleKey = none ∧
     shouldHandle (urlPathname c8Req.url) = true ∧
     c8Env.fs (joinPath "" (urlPathname c8Req.url)) = some ['x'] ∧
     resolveImports c8Env (joinPath "" (urlPathname c8Req.url)) ['x'] = .ok ['x']) ∧
    ((handleRequest c8Env "" (fun _ => none) c8Req).handled = true
    ∧ (handleRequest c8Env "" (fun _ => none) c8Req).response
        = some
          (if (match c8Req.ifNoneMatch with
               | some nm => jsContains nm.data ("\"" ++ c8Env.sha1hex ['x'] ++ "\"").data
               | none => false) then
            { status := 304,
              headers := [("access-control-allow-origin", "*"), ("x-request-url", c8Req.url)],
              body := none }
          else
            { status := 200,
              headers := [("access-control-allow-origin", "*"), ("x-request-url", c8Req.url),
                ("content-type", "application/javascript; charset=utf-8"),
                ("etag", "\"" ++ c8Env.sha1hex ['x'] ++ "\"")],
              body := some ['x'] })) :=
  ⟨⟨rfl, by decide, rfl, rfl⟩,
    handleRequest_conditional_etag c8Env "" (fun _ => none) c8Req ['x'] ['x']
      rfl (by decide) rfl rfl⟩

/-- C10: a 304 answer of the handler carries exactly the two base headers,
the permissive cross-origin header and the echoed request url, and a null
body; in particular it has no etag header and no content-type header,
unlike the 200 answer for the same path. -/
theorem handleRequest_304_minimal_headers (env : Env) (root : String)
    (cache : String → Option CacheEntry) (req : Request) (code rc : List Char) (nm : String)
    (hc : cache pathModuleKey = none)
    (hjs : shouldHandle (urlPathname req.url) = true)
    (hread : env.fs (joinPath root (urlPathname req.url)) = some code)
    (hok : resolveImports env (joinPath root (urlPathname req.url)) code = .ok rc)
    (hnm : req.ifNoneMatch = some nm)
    (hmatch : jsContains nm.data ("\"" ++ env.sha1hex rc ++ "\"").data = true) :
    (handleRequest env root cache req).response
        = some
          { status := 304,
            headers := [("access-control-allow-origin", "*"), ("x-request-url", req.url)],
            body := none }
    ∧ [("access-control-allow-origin", "*"), ("x-request-url", req.url)].lookup "etag"
        = (none : Option String)
    ∧ [("access-control-allow-origin", "*"), ("x-request-url", req.url)].lookup "content-type"
        = (none : Option String) := by
  have h1 : (("access-control-allow-origin" : String) == "etag") = false := by decide
  have h2 : (("x-request-url" : String) == "etag") = false := by decide
  have h3 : (("access-control-allow-origin" : String) == "content-type") = false := by decide
  have h4 : (("x-request-url" : String) == "content-type") = false := by decide
  refine ⟨?_, ?_, ?_⟩
  · simp [handleRequest, hjs, hc, hread, hok, serveFromEntry, hnm, send, mkCached]
    simpa using hmatch
  · simp [List.lookup, h1, h2]
  · simp [List.lookup, h3, h4]

/-- Witness for C10 at a concrete environment and request. -/
theorem handleRequest_304_minimal_headers_witness :
    ((fun _ => none : String → Option CacheEntry) pathModuleKey = none ∧
     c8Req.ifNoneMatch = some "W/\"H\"" ∧
     jsContains ("W/\"H\"").data ("\"" ++ c8Env.sha1hex ['x'] ++ "\"").data = true) ∧
    ((handleRequest c8Env "" (fun _ => none) c8Req).response
        = some
          { status := 304,
            headers := [("access-control-allow-origin", "*"), ("x-request-url", c8Req.url)],
            body := none }
    ∧ [("access-control-allow-origin", "*"), ("x-request-url", c8Req.url)].lookup "etag"
        = (none : Option String)
    ∧ [("access-control-allow-origin", "*"),
        ("x-request-url", c8Req.url)].lookup "content-type" = (none : Option String)) :=
  ⟨⟨rfl, rfl, by decide⟩,
    handleRequest_304_minimal_headers c8Env "" (fun _ => none) c8Req ['x'] ['x'] "W/\"H\""
      rfl (by decide) rfl rfl rfl (by decide)⟩

/-- A concrete environment with one readable module and a trivially
successful rewrite, for exercising the cache path. -/
def c1Env : Env :=
  { fs := fun p => if p = "/a.js" then some ['x'] else none
    parse := fun _ => .ok []
    resolveSync := fun _ _ => .ok ['r']
    relative := fun _ p => p
    sha1hex := fun _ => "H" }

/-- A plain unconditional request for the module. -/
def c1Req : Request := { url := "/a.js", ifNoneMatch := none }

/-- The first request against an empty cache. -/
def c1Run1 : HandlerOut := handleRequest c1Env "" (fun _ => none) c1Req

/-- The identical second request against the cache left by the first. -/
def c1Run2 : HandlerOut := handleRequest c1Env "" c1Run1.cache c1Req

/-- C1 fails on the code: the first request reads the file, stores an
entry under the pathname and arms a watch, yet the identical second
request, with the file unchanged, reads the file and arms a watch all over
again, because the lookup of line 59 reads the cache at the coerced
pathModuleKey, where no entry is ever stored, instead of at the
pathname. -/
theorem cache_lookup_never_hits :
    c1Run1.reads = ["/a.js"] ∧ c1Run1.watches = ["/a.js"]
    ∧ (c1Run1.cache "/a.js").isSome = true
    ∧ c1Run1.cache pathModuleKey = none
    ∧ c1Run2.reads = ["/a.js"] ∧ c1Run2.watches = ["/a.js"] := by
  decide

/-- A concrete environment with a readable file whose pathname ends in the
letters js but not in the extension .js, and a trivially successful
rewrite. -/
def c2Env : Env :=
  { fs := fun p => if p = "/abcjs" then some ['x'] else none
    parse := fun _ => .ok []
    resolveSync := fun _ _ => .ok ['r']
    relative := fun _ p => p
    sha1hex := fun _ => "H" }

/-- C2 fails on the code: the routing test of line 55 compares against the
bare suffixes js and mjs, without the dot, so the pathname /abcjs, which
ends in neither extension .js nor .mjs, is nevertheless handled and
answered with a 200 response. -/
theorem routing_accepts_bare_js_suffix :
    jsEndsWith "/abcjs" ".js" = false ∧ jsEndsWith "/abcjs" ".mjs" = false
    ∧ shouldHandle "/abcjs" = true
    ∧ (handleRequest c2Env "" (fun _ => none)
        { url := "/abcjs", ifNoneMatch := none }).handled = true
    ∧ ((handleRequest c2Env "" (fun _ => none)
        { url := "/abcjs", ifNoneMatch := none }).response.map Response.status) = some 200 := by
  decide
